import Mathlib

/-!
Verification of the soft-delete mixin in `src/apps/common/models.py`
(`SoftDeleteQuerySet`, `SoftDeleteManager`, `SoftDeleteModel`).

Shallow embedding: a table is a `List Rec` of rows; timestamps are `Nat`
(each call of `django.utils.timezone.now()` is a separate parameter, since
successive calls may return different values); a queryset over a table is a
selection predicate; bulk `update` rewrites the selected rows in place and
returns the number of rows matched.  The cascade scenario is a three-table
database: a parent model (extending `SoftDeleteModel`), a child model whose
foreign key `fk` references a parent row, and a grandchild model whose `fk`
references a child row.  Operations that issue writes also return the number
of write statements issued (`save()` = 1, each bulk `update` = 1), so that
"no-op, no write issued" claims are expressible.
-/

set_option maxHeartbeats 1000000

/-- A persisted row of a model adopting `SoftDeleteModel`.  `rid` is the
primary key, `fk` the optional foreign key to the row's parent,
`is_deleted` and `deleted_at` are the two fields declared on
`SoftDeleteModel` (models.py lines 51-52). -/
structure Rec where
  rid : Nat
  fk : Option Nat
  is_deleted : Bool
  deleted_at : Option Nat
deriving DecidableEq, Repr

/-- A freshly created row: `is_deleted = models.BooleanField(default=False)`,
`deleted_at = models.DateTimeField(blank=True, null=True)` (default `None`). -/
def defaultRec (i : Nat) (f : Option Nat) : Rec :=
  { rid := i, fk := f, is_deleted := false, deleted_at := none }

/-- Effect on one row of `update(is_deleted=True, deleted_at=now())`,
with `t` the value returned by `now()`. -/
def flagDeleted (t : Nat) (r : Rec) : Rec :=
  { r with is_deleted := true, deleted_at := some t }

/-- Effect on one row of `update(is_deleted=False, deleted_at=None)`. -/
def clearDeleted (r : Rec) : Rec :=
  { r with is_deleted := false, deleted_at := none }

/-- `SoftDeleteQuerySet._soft_delete` (models.py lines 9-11):
`self.update(is_deleted=True, deleted_at=now())`.  The queryset selects the
rows of `tbl` satisfying `sel`; the bulk update rewrites exactly those rows
and returns the number of rows matched. -/
def qs_soft_delete (t : Nat) (sel : Rec → Bool) (tbl : List Rec) :
    List Rec × Nat :=
  (tbl.map (fun r => if sel r then flagDeleted t r else r),
   (tbl.filter sel).length)

/-- `SoftDeleteQuerySet.delete` (models.py lines 13-15): delegates to
`_soft_delete`. -/
def qsDelete (t : Nat) (sel : Rec → Bool) (tbl : List Rec) :
    List Rec × Nat :=
  qs_soft_delete t sel tbl

/-- `SoftDeleteQuerySet.hard_delete` (models.py lines 17-19):
`super().delete()`, the physical removal of the selected rows. -/
def qsHardDelete (sel : Rec → Bool) (tbl : List Rec) : List Rec :=
  tbl.filter (fun r => !(sel r))

/-- `SoftDeleteQuerySet.restore` (models.py lines 21-23):
`self.update(is_deleted=False, deleted_at=None)`. -/
def qsRestore (sel : Rec → Bool) (tbl : List Rec) : List Rec × Nat :=
  (tbl.map (fun r => if sel r then clearDeleted r else r),
   (tbl.filter sel).length)

/-- `SoftDeleteQuerySet.deleted` (models.py lines 25-27):
`self.filter(is_deleted=True)`. -/
def qsDeleted (tbl : List Rec) : List Rec :=
  tbl.filter (fun r => r.is_deleted)

/-- `SoftDeleteQuerySet.active` (models.py lines 29-31):
`self.filter(is_deleted=False)`. -/
def qsActive (tbl : List Rec) : List Rec :=
  tbl.filter (fun r => !r.is_deleted)

/-- `SoftDeleteManager.get_queryset` (models.py lines 36-38): the default
entity-lookup entry point, `SoftDeleteQuerySet(self.model, using=self._db).active()`. -/
def manager_get_queryset (tbl : List Rec) : List Rec :=
  qsActive tbl

/-- `SoftDeleteManager.get_all` (models.py lines 40-42): the full unfiltered
queryset. -/
def manager_get_all (tbl : List Rec) : List Rec :=
  tbl

/-- `SoftDeleteManager.deleted_only` (models.py lines 44-46):
`SoftDeleteQuerySet(self.model, using=self._db).deleted()`. -/
def manager_deleted_only (tbl : List Rec) : List Rec :=
  qsDeleted tbl

/-- The database for the cascade scenario: rows of the parent model, of the
child model (whose `ForeignKey` references the parent), and of the grandchild
model (whose `ForeignKey` references the child). -/
structure DB where
  parents : List Rec
  children : List Rec
  grandchildren : List Rec
deriving DecidableEq, Repr

/-- Static facts about the child model and its `ForeignKey` to the parent,
as Django's relationship introspection reports them in
`SoftDeleteModel._soft_delete` / `restore`: whether the foreign key is
declared with `on_delete=models.CASCADE` (the `related.on_delete ==
models.CASCADE` test), and whether the child model extends `SoftDeleteModel`
(the `issubclass(related_model, SoftDeleteModel)` test). -/
structure RelCfg where
  childCascade : Bool
  childSoftDeletable : Bool
deriving DecidableEq, Repr

/-- Whether the reverse related manager obtained by
`getattr(self, related.get_accessor_name())` has an `all` attribute
(`hasattr(related_manager, "all")`, models.py line 71).  Django builds the
reverse accessor's manager class from the related model's default manager
class; every `django.db.models.Manager` has `all()`, so this holds. -/
def reverseManagerHasAll : Bool := true

/-- Whether the reverse related manager has a `deleted_only` attribute
(`hasattr(related_manager, "deleted_only")`, models.py line 93).  Django
builds the reverse accessor's manager class from the related model's
`_default_manager` class, and a model's `_default_manager` is the first
manager declared on it.  On `SoftDeleteModel` the first declared manager is
`objects_default = Manager()` (models.py line 54), the plain
`django.db.models.Manager`, which does not define `deleted_only`
(only `SoftDeleteManager`, bound second as `objects` on line 55, does).
Hence the reverse related manager never has an attribute named
`deleted_only`, and this is `false`. -/
def reverseManagerHasDeletedOnly : Bool := false

/-- Effect of `self.save()` on the entity's table: the row (or rows) whose
primary key equals the instance's is rewritten with the instance's fields,
here expressed as applying `f` to the stored row. -/
def saveRow (pid : Nat) (f : Rec → Rec) (tbl : List Rec) : List Rec :=
  tbl.map (fun r => if r.rid == pid then f r else r)

/-- Effect of `related_manager.all().update(...)` on the child table: the
reverse related manager selects exactly the child rows whose foreign key
references the instance (`fk == some pid`); the manager class derives from
the plain `objects_default` manager (the first one declared on
`SoftDeleteModel`), so no soft-delete filtering is applied and the bulk
update rewrites every such row, deleted or not. -/
def relatedBulkUpdate (pid : Nat) (f : Rec → Rec) (tbl : List Rec) :
    List Rec :=
  tbl.map (fun r => if r.fk == some pid then f r else r)

/-- `SoftDeleteModel._soft_delete` (models.py lines 60-75) called on the
parent-model instance whose primary key is `pid`; `t1` is the `now()` of
line 65 (the instance's `deleted_at`), `t2` the `now()` of line 75 (the
cascade bulk update).  Steps, as in the source: if the instance is already
deleted, return (no write); otherwise set `is_deleted = True`,
`deleted_at = now()`, `save()`; then for the one reverse relationship, if
`on_delete == CASCADE`, the related manager exists with an `all` attribute,
and the related model extends `SoftDeleteModel`, run
`related_manager.all().update(is_deleted=True, deleted_at=now())`.
The second component counts write statements issued. -/
def parent_soft_delete (cfg : RelCfg) (t1 t2 pid : Nat) (db : DB) :
    DB × Nat :=
  match db.parents.find? (fun r => r.rid == pid) with
  | none => (db, 0)
  | some s =>
    if s.is_deleted then (db, 0)
    else if cfg.childCascade && reverseManagerHasAll && cfg.childSoftDeletable then
      ({ db with parents := saveRow pid (flagDeleted t1) db.parents,
                 children := relatedBulkUpdate pid (flagDeleted t2) db.children }, 2)
    else
      ({ db with parents := saveRow pid (flagDeleted t1) db.parents }, 1)

/-- `SoftDeleteModel.delete` (models.py lines 77-79): delegates to
`_soft_delete`. -/
def parentDelete (cfg : RelCfg) (t1 t2 pid : Nat) (db : DB) : DB × Nat :=
  parent_soft_delete cfg t1 t2 pid db

/-- `SoftDeleteModel.restore` (models.py lines 81-97) called on the
parent-model instance whose primary key is `pid`.  If the instance is not
deleted, return (no write); otherwise clear both fields and `save()`; then
for the reverse relationship, the guard on line 93 requires
`hasattr(related_manager, "deleted_only")`, which is
`reverseManagerHasDeletedOnly` and never holds (the reverse manager derives
from the plain first-declared manager), so the cascade bulk update on
line 97 — `related_manager.all().update(is_deleted=False, deleted_at=None)`,
which would rewrite every child row referencing the instance — is embedded
faithfully but can never execute. -/
def parentRestore (cfg : RelCfg) (pid : Nat) (db : DB) : DB × Nat :=
  match db.parents.find? (fun r => r.rid == pid) with
  | none => (db, 0)
  | some s =>
    if s.is_deleted = false then (db, 0)
    else if cfg.childCascade && reverseManagerHasDeletedOnly && cfg.childSoftDeletable then
      ({ db with parents := saveRow pid clearDeleted db.parents,
                 children := relatedBulkUpdate pid clearDeleted db.children }, 2)
    else
      ({ db with parents := saveRow pid clearDeleted db.parents }, 1)

/-- `SoftDeleteModel.hard_delete` (models.py lines 99-101):
`super().delete()`, the persistence layer's physical delete of this single
record; the mixin adds no handling of its own, so the entity's row is
removed from its table and every other row of that table is left untouched.
Referential actions the external persistence layer may apply to other tables
are its own behavior (spec section 6) and outside this component. -/
def parentHardDelete (pid : Nat) (db : DB) : DB :=
  { db with parents := db.parents.filter (fun r => !(r.rid == pid)) }

/-- The invariant of the spec, per record:
`is_deleted == false  ⇔  deleted_at == null`. -/
def recInv (r : Rec) : Prop :=
  r.is_deleted = false ↔ r.deleted_at = none

instance (r : Rec) : Decidable (recInv r) := by
  unfold recInv; infer_instance

/-- The invariant holding of every row of a table. -/
def tableInv (tbl : List Rec) : Prop :=
  ∀ r ∈ tbl, recInv r

instance (tbl : List Rec) : Decidable (tableInv tbl) := by
  unfold tableInv; infer_instance

/-- The invariant holding of every row of every table. -/
def dbInv (db : DB) : Prop :=
  tableInv db.parents ∧ tableInv db.children ∧ tableInv db.grandchildren

instance (db : DB) : Decidable (dbInv db) := by
  unfold dbInv; infer_instance

/-- The collection wrapper's `delete()` applied to the child table of the
database: `SoftDeleteQuerySet.delete` is `self.update(...)`, a single bulk
update statement against the queryset's own table; no other table is read
or written (the bulk path contains no cascade logic). -/
def dbChildrenQsDelete (t : Nat) (sel : Rec → Bool) (db : DB) : DB × Nat :=
  ({ db with children := (qsDelete t sel db.children).1 },
   (qsDelete t sel db.children).2)

/-! Concrete fixtures used by the witnesses: one active parent row, one
active and one already-deleted child row referencing it, one grandchild
row referencing the active child. -/

def cfgW : RelCfg := { childCascade := true, childSoftDeletable := true }

def dbW : DB :=
  { parents := [{ rid := 0, fk := none, is_deleted := false, deleted_at := none }],
    children := [{ rid := 1, fk := some 0, is_deleted := false, deleted_at := none },
                 { rid := 2, fk := some 0, is_deleted := true, deleted_at := some 3 }],
    grandchildren := [{ rid := 4, fk := some 1, is_deleted := false, deleted_at := none }] }

def sW : Rec := { rid := 0, fk := none, is_deleted := false, deleted_at := none }

/-! Helper lemmas. -/

theorem recInv_flagDeleted (t : Nat) (r : Rec) : recInv (flagDeleted t r) := by
  simp [recInv, flagDeleted]

theorem recInv_clearDeleted (r : Rec) : recInv (clearDeleted r) := by
  simp [recInv, clearDeleted]

theorem find?_map_pres (p : Rec → Bool) (f : Rec → Rec)
    (hf : ∀ r, p (f r) = p r) :
    ∀ l : List Rec, (l.map f).find? p = (l.find? p).map f := by
  intro l
  induction l with
  | nil => rfl
  | cons a l ih =>
    by_cases h : p a = true
    · rw [List.map_cons, List.find?_cons_of_pos _ (by rw [hf]; exact h),
        List.find?_cons_of_pos _ h]
      rfl
    · rw [List.map_cons, List.find?_cons_of_neg _ (by rw [hf]; exact h),
        List.find?_cons_of_neg _ h, ih]

theorem find?_rid_saveRow (pid : Nat) (f : Rec → Rec)
    (hf : ∀ r, (f r).rid = r.rid) (tbl : List Rec) (s : Rec)
    (hs : tbl.find? (fun r => r.rid == pid) = some s) :
    (saveRow pid f tbl).find? (fun r => r.rid == pid) = some (f s) := by
  unfold saveRow
  rw [find?_map_pres (fun r => r.rid == pid)
    (fun r => if r.rid == pid then f r else r)
    (fun r => by by_cases h : (r.rid == pid) = true <;> simp [h, hf]) tbl, hs]
  have hp := List.find?_some hs
  simp only [beq_iff_eq] at hp
  simp [hp]

theorem tableInv_map_ite (q : Rec → Bool) (f : Rec → Rec)
    (hf : ∀ r, recInv (f r)) (tbl : List Rec) (ht : tableInv tbl) :
    tableInv (tbl.map (fun r => if q r then f r else r)) := by
  intro r hr
  rcases List.mem_map.1 hr with ⟨a, ha, rfl⟩
  by_cases h : q a = true
  · rw [if_pos h]; exact hf a
  · rw [if_neg h]; exact ht a ha

theorem parentDelete_parents (cfg : RelCfg) (t1 t2 pid : Nat) (db : DB)
    (s : Rec) (hf : db.parents.find? (fun r => r.rid == pid) = some s)
    (hact : s.is_deleted = false) :
    (parentDelete cfg t1 t2 pid db).1.parents =
      saveRow pid (flagDeleted t1) db.parents := by
  unfold parentDelete parent_soft_delete
  rw [hf]
  simp only [hact, Bool.false_eq_true, if_false]
  split <;> rfl

theorem parentDelete_cascade (cfg : RelCfg) (t1 t2 pid : Nat) (db : DB)
    (s : Rec) (hf : db.parents.find? (fun r => r.rid == pid) = some s)
    (hact : s.is_deleted = false)
    (hcas : cfg.childCascade = true) (hsd : cfg.childSoftDeletable = true) :
    parentDelete cfg t1 t2 pid db =
      ({ db with parents := saveRow pid (flagDeleted t1) db.parents,
                 children := relatedBulkUpdate pid (flagDeleted t2) db.children }, 2) := by
  unfold parentDelete parent_soft_delete
  rw [hf]
  simp [hact, hcas, hsd, reverseManagerHasAll]

theorem parentDelete_noop (cfg : RelCfg) (t1 t2 pid : Nat) (db : DB)
    (h : ∀ s, db.parents.find? (fun r => r.rid == pid) = some s →
      s.is_deleted = true) :
    parentDelete cfg t1 t2 pid db = (db, 0) := by
  unfold parentDelete parent_soft_delete
  cases hfind : db.parents.find? (fun r => r.rid == pid) with
  | none => rfl
  | some s => simp [h s hfind]

theorem parentRestore_deleted (cfg : RelCfg) (pid : Nat) (db : DB)
    (s : Rec) (hf : db.parents.find? (fun r => r.rid == pid) = some s)
    (hdel : s.is_deleted = true) :
    parentRestore cfg pid db =
      ({ db with parents := saveRow pid clearDeleted db.parents }, 1) := by
  unfold parentRestore
  rw [hf]
  simp [hdel, reverseManagerHasDeletedOnly]

/-! The claims. -/

/-- C1: for every entity adopting the soft-delete capability,
`is_deleted == false ⇔ deleted_at == null` holds at creation (both fields at
their defaults) and is preserved by every operation of the component:
per-entity `delete()` and `restore()` (including their cascade bulk
updates), and the collection wrapper's `delete()` and `restore()`. -/
theorem c1_invariant (i : Nat) (fkv : Option Nat) (cfg : RelCfg)
    (t1 t2 t pid : Nat) (db : DB) (sel : Rec → Bool) (tbl : List Rec)
    (hdb : dbInv db) (htbl : tableInv tbl) :
    recInv (defaultRec i fkv) ∧
    dbInv (parentDelete cfg t1 t2 pid db).1 ∧
    dbInv (parentRestore cfg pid db).1 ∧
    tableInv (qsDelete t sel tbl).1 ∧
    tableInv (qsRestore sel tbl).1 := by
  obtain ⟨hp, hc, hg⟩ := hdb
  refine ⟨by simp [recInv, defaultRec], ?_, ?_, ?_, ?_⟩
  · unfold parentDelete parent_soft_delete
    cases hfind : db.parents.find? (fun r => r.rid == pid) with
    | none => exact ⟨hp, hc, hg⟩
    | some s =>
      dsimp only
      by_cases hs : s.is_deleted = true
      · rw [if_pos hs]
        exact ⟨hp, hc, hg⟩
      · rw [if_neg hs]
        split
        · exact ⟨tableInv_map_ite _ _ (recInv_flagDeleted t1) _ hp,
            tableInv_map_ite _ _ (recInv_flagDeleted t2) _ hc, hg⟩
        · exact ⟨tableInv_map_ite _ _ (recInv_flagDeleted t1) _ hp, hc, hg⟩
  · unfold parentRestore
    cases hfind : db.parents.find? (fun r => r.rid == pid) with
    | none => exact ⟨hp, hc, hg⟩
    | some s =>
      dsimp only
      by_cases hs : s.is_deleted = false
      · rw [if_pos hs]
        exact ⟨hp, hc, hg⟩
      · rw [if_neg hs]
        split
        · exact ⟨tableInv_map_ite _ _ recInv_clearDeleted _ hp,
            tableInv_map_ite _ _ recInv_clearDeleted _ hc, hg⟩
        · exact ⟨tableInv_map_ite _ _ recInv_clearDeleted _ hp, hc, hg⟩
  · exact tableInv_map_ite _ _ (recInv_flagDeleted t) _ htbl
  · exact tableInv_map_ite _ _ recInv_clearDeleted _ htbl

/-- Witness for C1, at the concrete fixtures. -/
theorem c1_invariant_witness :
    dbInv dbW ∧ tableInv dbW.children ∧
    (recInv (defaultRec 7 none) ∧
     dbInv (parentDelete cfgW 5 6 0 dbW).1 ∧
     dbInv (parentRestore cfgW 0 dbW).1 ∧
     tableInv (qsDelete 9 (fun r => r.fk == some 0) dbW.children).1 ∧
     tableInv (qsRestore (fun r => r.is_deleted) dbW.children).1) :=
  ⟨by decide, by decide,
   c1_invariant 7 none cfgW 5 6 9 0 dbW (fun r => r.fk == some 0)
     dbW.children (by decide) (by decide)⟩

/-- C5: per-entity `delete()` is idempotent: a second call leaves the whole
database exactly as the first call left it, and issues zero writes (the
guard on an already-deleted instance returns before any `save()` or bulk
update), whatever timestamps the clock returns on the second call. -/
theorem c5_delete_idempotent (cfg : RelCfg) (t1 t2 t3 t4 pid : Nat)
    (db : DB) :
    parentDelete cfg t3 t4 pid (parentDelete cfg t1 t2 pid db).1 =
      ((parentDelete cfg t1 t2 pid db).1, 0) := by
  by_cases hcase : ∀ s, db.parents.find? (fun r => r.rid == pid) = some s →
      s.is_deleted = true
  · rw [parentDelete_noop cfg t1 t2 pid db hcase]
    exact parentDelete_noop cfg t3 t4 pid db hcase
  · push_neg at hcase
    obtain ⟨s, hf, hact⟩ := hcase
    apply parentDelete_noop
    intro s2 hs2
    rw [parentDelete_parents cfg t1 t2 pid db s hf (by simpa using hact)] at hs2
    rw [find?_rid_saveRow pid (flagDeleted t1) (fun r => rfl) db.parents s hf]
      at hs2
    cases hs2
    rfl

/-- C7: `restore()` on an already-ACTIVE entity is a no-op: the database is
unchanged and zero writes are issued (neither the entity's row nor any
related collection is written). -/
theorem c7_restore_active_noop (cfg : RelCfg) (pid : Nat) (db : DB) (s : Rec)
    (hf : db.parents.find? (fun r => r.rid == pid) = some s)
    (hact : s.is_deleted = false) :
    parentRestore cfg pid db = (db, 0) := by
  unfold parentRestore
  rw [hf]
  simp [hact]

/-- Witness for C7: restoring the active parent of the fixture database
changes nothing and issues no write. -/
theorem c7_restore_active_noop_witness :
    dbW.parents.find? (fun r => r.rid == 0) = some sW ∧
    sW.is_deleted = false ∧
    parentRestore cfgW 0 dbW = (dbW, 0) :=
  ⟨by decide, by decide, c7_restore_active_noop cfgW 0 dbW sW (by decide) (by decide)⟩

/-- C2: `delete()` on an ACTIVE entity sets `is_deleted = true` and
`deleted_at` to the current time and persists the row; for a CASCADE
relationship whose related model is also soft-deletable it bulk-flags every
related record as deleted; and the cascade descends exactly one level — the
related records' own related table (the grandchildren) is untouched. -/
theorem c2_delete_cascade (cfg : RelCfg) (t1 t2 pid : Nat) (db : DB) (s : Rec)
    (hf : db.parents.find? (fun r => r.rid == pid) = some s)
    (hact : s.is_deleted = false)
    (hcas : cfg.childCascade = true) (hsd : cfg.childSoftDeletable = true) :
    (parentDelete cfg t1 t2 pid db).1.parents.find? (fun r => r.rid == pid) =
      some (flagDeleted t1 s) ∧
    (flagDeleted t1 s).is_deleted = true ∧
    (flagDeleted t1 s).deleted_at = some t1 ∧
    (∀ c ∈ (parentDelete cfg t1 t2 pid db).1.children,
      c.fk = some pid → c.is_deleted = true ∧ c.deleted_at = some t2) ∧
    (parentDelete cfg t1 t2 pid db).1.grandchildren = db.grandchildren := by
  rw [parentDelete_cascade cfg t1 t2 pid db s hf hact hcas hsd]
  refine ⟨?_, rfl, rfl, ?_, rfl⟩
  · exact find?_rid_saveRow pid (flagDeleted t1) (fun r => rfl) db.parents s hf
  · intro c hcmem hcfk
    simp only [relatedBulkUpdate] at hcmem
    rcases List.mem_map.1 hcmem with ⟨a, ha, heq⟩
    by_cases h : (a.fk == some pid) = true
    · rw [if_pos h] at heq
      rw [← heq]
      exact ⟨rfl, rfl⟩
    · rw [if_neg h] at heq
      rw [← heq] at hcfk
      simp [hcfk] at h

/-- Witness for C2, at the concrete fixtures. -/
theorem c2_delete_cascade_witness :
    dbW.parents.find? (fun r => r.rid == 0) = some sW ∧
    sW.is_deleted = false ∧
    cfgW.childCascade = true ∧ cfgW.childSoftDeletable = true ∧
    ((parentDelete cfgW 5 6 0 dbW).1.parents.find? (fun r => r.rid == 0) =
      some (flagDeleted 5 sW) ∧
     (flagDeleted 5 sW).is_deleted = true ∧
     (flagDeleted 5 sW).deleted_at = some 5 ∧
     (∀ c ∈ (parentDelete cfgW 5 6 0 dbW).1.children,
       c.fk = some 0 → c.is_deleted = true ∧ c.deleted_at = some 6) ∧
     (parentDelete cfgW 5 6 0 dbW).1.grandchildren = dbW.grandchildren) :=
  ⟨by decide, by decide, by decide, by decide,
   c2_delete_cascade cfgW 5 6 0 dbW sW (by decide) (by decide) (by decide)
     (by decide)⟩

/-- C4: the default entity-lookup entry point (`objects.get_queryset`)
returns exactly the records with `is_deleted = false`; `get_all` returns the
full unfiltered set; `deleted_only` returns exactly the records with
`is_deleted = true`; and an ACTIVE entity on which `delete()` is called
disappears from the default lookup. -/
theorem c4_manager_filters (tbl : List Rec) (r : Rec) (cfg : RelCfg)
    (t1 t2 pid : Nat) (db : DB) (s : Rec)
    (hf : db.parents.find? (fun x => x.rid == pid) = some s)
    (hact : s.is_deleted = false) :
    (r ∈ manager_get_queryset tbl ↔ r ∈ tbl ∧ r.is_deleted = false) ∧
    manager_get_all tbl = tbl ∧
    (r ∈ manager_deleted_only tbl ↔ r ∈ tbl ∧ r.is_deleted = true) ∧
    (∀ q ∈ manager_get_queryset (parentDelete cfg t1 t2 pid db).1.parents,
      q.rid ≠ pid) := by
  refine ⟨?_, rfl, ?_, ?_⟩
  · simp [manager_get_queryset, qsActive, List.mem_filter]
  · simp [manager_deleted_only, qsDeleted, List.mem_filter]
  · intro q hq
    rw [parentDelete_parents cfg t1 t2 pid db s hf hact] at hq
    simp only [manager_get_queryset, qsActive, List.mem_filter] at hq
    obtain ⟨hmem, hactq⟩ := hq
    simp only [saveRow] at hmem
    rcases List.mem_map.1 hmem with ⟨a, ha, heq⟩
    intro hrid
    by_cases h : (a.rid == pid) = true
    · rw [if_pos h] at heq
      rw [← heq] at hactq
      simp [flagDeleted] at hactq
    · rw [if_neg h] at heq
      rw [← heq] at hrid
      simp [hrid] at h

/-- Witness for C4, at the concrete fixtures. -/
theorem c4_manager_filters_witness :
    dbW.parents.find? (fun x => x.rid == 0) = some sW ∧
    sW.is_deleted = false ∧
    ((⟨1, some 0, false, none⟩ : Rec) ∈ manager_get_queryset dbW.children ↔
       (⟨1, some 0, false, none⟩ : Rec) ∈ dbW.children ∧
       (⟨1, some 0, false, none⟩ : Rec).is_deleted = false) ∧
    manager_get_all dbW.children = dbW.children ∧
    ((⟨1, some 0, false, none⟩ : Rec) ∈ manager_deleted_only dbW.children ↔
       (⟨1, some 0, false, none⟩ : Rec) ∈ dbW.children ∧
       (⟨1, some 0, false, none⟩ : Rec).is_deleted = true) ∧
    (∀ q ∈ manager_get_queryset (parentDelete cfgW 5 6 0 dbW).1.parents,
      q.rid ≠ 0) :=
  ⟨by decide, by decide,
   c4_manager_filters dbW.children ⟨1, some 0, false, none⟩ cfgW 5 6 0 dbW sW
     (by decide) (by decide)⟩

/-- C6: for an ACTIVE entity (so `deleted_at = none` beforehand, by the
invariant), `delete()` followed by `restore()` returns the stored row to
exactly its pre-delete value: `is_deleted` round-trips to `false` and
`deleted_at` is null before and after; the intermediate timestamp `t1` is
not remembered. -/
theorem c6_round_trip (cfg : RelCfg) (t1 t2 pid : Nat) (db : DB) (s : Rec)
    (hf : db.parents.find? (fun r => r.rid == pid) = some s)
    (hact : s.is_deleted = false) (hts : s.deleted_at = none) :
    (parentRestore cfg pid (parentDelete cfg t1 t2 pid db).1).1.parents.find?
        (fun r => r.rid == pid) = some s ∧
    s.is_deleted = false ∧ s.deleted_at = none := by
  have hdp := parentDelete_parents cfg t1 t2 pid db s hf hact
  have hfind1 : (parentDelete cfg t1 t2 pid db).1.parents.find?
      (fun r => r.rid == pid) = some (flagDeleted t1 s) := by
    rw [hdp]
    exact find?_rid_saveRow pid (flagDeleted t1) (fun r => rfl) db.parents s hf
  have hcs : clearDeleted (flagDeleted t1 s) = s := by
    cases s
    simp_all [clearDeleted, flagDeleted]
  refine ⟨?_, hact, hts⟩
  rw [parentRestore_deleted cfg pid _ (flagDeleted t1 s) hfind1 rfl]
  dsimp only
  rw [hdp]
  rw [find?_rid_saveRow pid clearDeleted (fun r => rfl) _ (flagDeleted t1 s)
    (find?_rid_saveRow pid (flagDeleted t1) (fun r => rfl) db.parents s hf),
    hcs]

/-- Witness for C6, at the concrete fixtures. -/
theorem c6_round_trip_witness :
    dbW.parents.find? (fun r => r.rid == 0) = some sW ∧
    sW.is_deleted = false ∧ sW.deleted_at = none ∧
    ((parentRestore cfgW 0 (parentDelete cfgW 5 6 0 dbW).1).1.parents.find?
        (fun r => r.rid == 0) = some sW ∧
     sW.is_deleted = false ∧ sW.deleted_at = none) :=
  ⟨by decide, by decide, by decide,
   c6_round_trip cfgW 5 6 0 dbW sW (by decide) (by decide) (by decide)⟩

/-- C3 evaluation at the failing input: parent 0 and its CASCADE-related
soft-deletable child 1 are both soft-deleted; `restore()` on the parent
clears the parent's row and issues exactly one write, but leaves the child
soft-deleted.  The cascade guard `hasattr(related_manager, "deleted_only")`
(models.py line 93) is false for the reverse related manager — it derives
from the plain first-declared `objects_default` manager — so the restore of
related records promised by the method's own docstring never runs. -/
theorem c3_restore_skips_cascade :
    parentRestore { childCascade := true, childSoftDeletable := true } 0
      { parents := [{ rid := 0, fk := none, is_deleted := true, deleted_at := some 5 }],
        children := [{ rid := 1, fk := some 0, is_deleted := true, deleted_at := some 5 }],
        grandchildren := [] } =
    ({ parents := [{ rid := 0, fk := none, is_deleted := false, deleted_at := none }],
       children := [{ rid := 1, fk := some 0, is_deleted := true, deleted_at := some 5 }],
       grandchildren := [] }, 1) := by
  decide

/-- C8: the collection wrapper's `delete()` bulk-flags every member of the
collection with `is_deleted = true, deleted_at = now()`, leaves non-members
unchanged, returns the number of records affected, and does not cascade:
the parent table and the members' own related (grandchild) table are
untouched. -/
theorem c8_qs_delete (t : Nat) (sel : Rec → Bool) (db : DB) :
    (∀ r ∈ db.children, sel r = true →
      flagDeleted t r ∈ (dbChildrenQsDelete t sel db).1.children) ∧
    (∀ r ∈ db.children, sel r = false →
      r ∈ (dbChildrenQsDelete t sel db).1.children) ∧
    (dbChildrenQsDelete t sel db).2 = (db.children.filter sel).length ∧
    (dbChildrenQsDelete t sel db).1.parents = db.parents ∧
    (dbChildrenQsDelete t sel db).1.grandchildren = db.grandchildren := by
  refine ⟨?_, ?_, rfl, rfl, rfl⟩
  · intro r hr hsel
    simp only [dbChildrenQsDelete, qsDelete, qs_soft_delete]
    exact List.mem_map.2 ⟨r, hr, by rw [if_pos hsel]⟩
  · intro r hr hsel
    simp only [dbChildrenQsDelete, qsDelete, qs_soft_delete]
    exact List.mem_map.2 ⟨r, hr, by rw [if_neg (by simp [hsel])]⟩

/-- Witness for C8, at the concrete fixtures. -/
theorem c8_qs_delete_witness :
    (∀ r ∈ dbW.children, (r.fk == some 0) = true →
      flagDeleted 7 r ∈ (dbChildrenQsDelete 7 (fun x => x.fk == some 0) dbW).1.children) ∧
    (∀ r ∈ dbW.children, (r.fk == some 0) = false →
      r ∈ (dbChildrenQsDelete 7 (fun x => x.fk == some 0) dbW).1.children) ∧
    (dbChildrenQsDelete 7 (fun x => x.fk == some 0) dbW).2 =
      (dbW.children.filter (fun x => x.fk == some 0)).length ∧
    (dbChildrenQsDelete 7 (fun x => x.fk == some 0) dbW).1.parents = dbW.parents ∧
    (dbChildrenQsDelete 7 (fun x => x.fk == some 0) dbW).1.grandchildren =
      dbW.grandchildren :=
  c8_qs_delete 7 (fun x => x.fk == some 0) dbW

/-- C9: `hard_delete()` delegates to the persistence layer's physical delete
of this single record, bypassing the flag mechanism: afterwards no accessor
— the default lookup, the unfiltered `get_all`, or `deleted_only` — returns
a record with the entity's key, and every other row of the table survives
with its stored fields untouched. -/
theorem c9_hard_delete (pid : Nat) (db : DB) :
    (∀ r ∈ manager_get_all (parentHardDelete pid db).parents, r.rid ≠ pid) ∧
    (∀ r ∈ manager_get_queryset (parentHardDelete pid db).parents, r.rid ≠ pid) ∧
    (∀ r ∈ manager_deleted_only (parentHardDelete pid db).parents, r.rid ≠ pid) ∧
    (∀ r ∈ db.parents, r.rid ≠ pid → r ∈ (parentHardDelete pid db).parents) := by
  refine ⟨?_, ?_, ?_, ?_⟩
  · intro r hr
    simp only [manager_get_all, parentHardDelete, List.mem_filter] at hr
    simpa using hr.2
  · intro r hr
    simp only [manager_get_queryset, qsActive, parentHardDelete,
      List.mem_filter] at hr
    simpa using hr.1.2
  · intro r hr
    simp only [manager_deleted_only, qsDeleted, parentHardDelete,
      List.mem_filter] at hr
    simpa using hr.1.2
  · intro r hr hne
    simp only [parentHardDelete, List.mem_filter]
    exact ⟨hr, by simp [hne]⟩

/-- Witness for C9, at the concrete fixtures. -/
theorem c9_hard_delete_witness :
    (∀ r ∈ manager_get_all (parentHardDelete 0 dbW).parents, r.rid ≠ 0) ∧
    (∀ r ∈ manager_get_queryset (parentHardDelete 0 dbW).parents, r.rid ≠ 0) ∧
    (∀ r ∈ manager_deleted_only (parentHardDelete 0 dbW).parents, r.rid ≠ 0) ∧
    (∀ r ∈ dbW.parents, r.rid ≠ 0 → r ∈ (parentHardDelete 0 dbW).parents) :=
  c9_hard_delete 0 dbW

/-- C10: the delete cascade's bulk update is applied unconditionally to
every related record, including those already soft-deleted: such a record's
`deleted_at` is overwritten with the cascade's `now()` value `t2` (its
original deletion time no longer appears in the table) while `is_deleted`
stays `true`. -/
theorem c10_cascade_overwrites (cfg : RelCfg) (t1 t2 pid : Nat) (db : DB)
    (s c : Rec)
    (hf : db.parents.find? (fun r => r.rid == pid) = some s)
    (hact : s.is_deleted = false)
    (hcas : cfg.childCascade = true) (hsd : cfg.childSoftDeletable = true)
    (hcm : c ∈ db.children) (hcf : c.fk = some pid)
    (_hcd : c.is_deleted = true) :
    flagDeleted t2 c ∈ (parentDelete cfg t1 t2 pid db).1.children ∧
    (flagDeleted t2 c).is_deleted = true ∧
    (flagDeleted t2 c).deleted_at = some t2 ∧
    (c.deleted_at ≠ some t2 → c ∉ (parentDelete cfg t1 t2 pid db).1.children) := by
  rw [parentDelete_cascade cfg t1 t2 pid db s hf hact hcas hsd]
  dsimp only
  refine ⟨?_, rfl, rfl, ?_⟩
  · simp only [relatedBulkUpdate]
    exact List.mem_map.2 ⟨c, hcm, by rw [if_pos (by simp [hcf])]⟩
  · intro hne hmem
    simp only [relatedBulkUpdate] at hmem
    rcases List.mem_map.1 hmem with ⟨a, ha, heq⟩
    by_cases h : (a.fk == some pid) = true
    · rw [if_pos h] at heq
      apply hne
      rw [← heq]
      rfl
    · rw [if_neg h] at heq
      rw [← heq] at hcf
      simp [hcf] at h

/-- Witness for C10: the fixture's already-deleted child (row 2, deleted at
time 3) is re-stamped with the cascade time 6 and its old row disappears. -/
theorem c10_cascade_overwrites_witness :
    dbW.parents.find? (fun r => r.rid == 0) = some sW ∧
    sW.is_deleted = false ∧
    cfgW.childCascade = true ∧ cfgW.childSoftDeletable = true ∧
    (⟨2, some 0, true, some 3⟩ : Rec) ∈ dbW.children ∧
    (⟨2, some 0, true, some 3⟩ : Rec).fk = some 0 ∧
    (⟨2, some 0, true, some 3⟩ : Rec).is_deleted = true ∧
    (flagDeleted 6 ⟨2, some 0, true, some 3⟩ ∈
        (parentDelete cfgW 5 6 0 dbW).1.children ∧
     (flagDeleted 6 (⟨2, some 0, true, some 3⟩ : Rec)).is_deleted = true ∧
     (flagDeleted 6 (⟨2, some 0, true, some 3⟩ : Rec)).deleted_at = some 6 ∧
     ((⟨2, some 0, true, some 3⟩ : Rec).deleted_at ≠ some 6 →
       (⟨2, some 0, true, some 3⟩ : Rec) ∉ (parentDelete cfgW 5 6 0 dbW).1.children)) :=
  ⟨by decide, by decide, by decide, by decide, by decide, by decide, by decide,
   c10_cascade_overwrites cfgW 5 6 0 dbW sW ⟨2, some 0, true, some 3⟩
     (by decide) (by decide) (by decide) (by decide) (by decide) (by decide)
     (by decide)⟩
